import Mathlib

/-!
Verification of the wire-format, language-resolution and response-classification
layer of an asynchronous client for a remote code-execution service
(source: src/async_tio/tio.py).

Bytes are modelled as natural numbers (each < 256 for genuine UTF-8 output);
Python strings are Lean strings, and Python str.encode("utf-8") is the
function utf8Bytes below.
-/

namespace AsyncRun

/-- UTF-8 encoding of a single Unicode scalar value, as a list of byte values.
Mirrors what Python bytes(s, encoding="utf-8") produces per character. -/
def utf8CharBytes (n : Nat) : List Nat :=
  if n < 128 then [n]
  else if n < 2048 then [192 + n / 64, 128 + n % 64]
  else if n < 65536 then [224 + n / 4096, 128 + (n / 64) % 64, 128 + n % 64]
  else [240 + n / 262144, 128 + (n / 4096) % 64, 128 + (n / 64) % 64, 128 + n % 64]

/-- UTF-8 encoding of a whole string: Python bytes(s, encoding="utf-8"). -/
def utf8Bytes (s : String) : List Nat :=
  (s.data.map (fun c => utf8CharBytes c.toNat)).flatten

/-- Decimal digits of a natural number, most significant first, with fuel
(fuel n+1 always suffices). -/
def natDigitsFuel : Nat → Nat → List Nat
  | 0, _ => []
  | fuel + 1, n => if n < 10 then [n] else natDigitsFuel fuel (n / 10) ++ [n % 10]

/-- ASCII bytes of the decimal rendering of a natural number:
the UTF-8 bytes of Python str(n). -/
def decBytes (n : Nat) : List Nat :=
  (natDigitsFuel (n + 1) n).map (fun d => d + 48)

/-- The decimal rendering of a natural number as a string: Python str(n). -/
def natToStr (n : Nat) : String :=
  String.mk ((natDigitsFuel (n + 1) n).map (fun d => Char.ofNat (d + 48)))

/-- Join byte chunks with a single NUL byte between consecutive chunks:
the byte-level image of Python "\x00".join. -/
def nulJoin : List (List Nat) → List Nat
  | [] => []
  | [x] => x
  | x :: y :: xs => x ++ [0] ++ nulJoin (y :: xs)

/-- The two runtime shapes a request-field value can take in the source:
a Python str or a Python list of str. -/
inductive PyVal where
  | str (s : String)
  | list (xs : List String)

/-- Tio._format_payload: the encoder of a single named field.
Empty values (falsy in Python) give zero bytes; a list gives the
NUL-joined record "V"+name, len, elements..., with a trailing NUL byte;
a string gives "F"+name, UTF-8 byte length, text, NUL-separated with a
trailing NUL.  The Python code joins the parts as strings and UTF-8
encodes the result; since the separator NUL encodes to the single byte 0,
this equals joining the UTF-8 encodings at byte level, which is the form
used here. -/
def format_payload (name : String) (obj : PyVal) : List Nat :=
  match obj with
  | .list xs =>
    if xs = [] then []
    else nulJoin ([utf8Bytes ("V" ++ name), decBytes xs.length] ++ xs.map utf8Bytes) ++ [0]
  | .str s =>
    if s = "" then []
    else utf8Bytes ("F" ++ name) ++ [0] ++ decBytes (utf8Bytes s).length ++ [0]
         ++ utf8Bytes s ++ [0]

/-- Split a byte list at its first NUL byte: the part before it and the
part after it, or none when no NUL occurs. -/
def splitNul : List Nat → Option (List Nat × List Nat)
  | [] => none
  | b :: bs =>
    if b = 0 then some ([], bs)
    else (splitNul bs).map (fun p => (b :: p.1, p.2))

/-- Left fold of ASCII decimal digits onto an accumulator; fails on a
non-digit byte. -/
def parseDecAux : List Nat → Nat → Option Nat
  | [], acc => some acc
  | d :: ds, acc =>
    if 48 ≤ d ∧ d ≤ 57 then parseDecAux ds (acc * 10 + (d - 48)) else none

/-- Parse a non-empty run of ASCII decimal digits as a natural number. -/
def parseDec (ds : List Nat) : Option Nat :=
  match ds with
  | [] => none
  | _ :: _ => parseDecAux ds 0

/-- Decoder for a scalar ("F") field record: tag byte 70, the name up to a
NUL, a decimal byte count up to a NUL, then exactly that many body bytes
and a final NUL.  Returns the name bytes, the declared count and the body. -/
def decodeF (r : List Nat) : Option (List Nat × Nat × List Nat) :=
  match r with
  | [] => none
  | b :: rest =>
    if b = 70 then
      match splitNul rest with
      | none => none
      | some (nameB, rest1) =>
        match splitNul rest1 with
        | none => none
        | some (digits, rest2) =>
          match parseDec digits with
          | none => none
          | some n =>
            if rest2.length = n + 1 ∧ rest2.drop n = [0] then
              some (nameB, n, rest2.take n)
            else none
    else none

/-- Read count-many NUL-terminated segments from a byte list, returning the
segments and the remaining bytes. -/
def readSegs : Nat → List Nat → Option (List (List Nat) × List Nat)
  | 0, rest => some ([], rest)
  | k + 1, rest =>
    match splitNul rest with
    | none => none
    | some (seg, rest1) =>
      match readSegs k rest1 with
      | none => none
      | some (segs, rest2) => some (seg :: segs, rest2)

/-- Decoder for a sequence ("V") field record: tag byte 86, the name up to
a NUL, a decimal element count up to a NUL, then exactly that many
NUL-terminated elements consuming the whole record.  Returns the name
bytes, the declared count and the element byte lists. -/
def decodeV (r : List Nat) : Option (List Nat × Nat × List (List Nat)) :=
  match r with
  | [] => none
  | b :: rest =>
    if b = 86 then
      match splitNul rest with
      | none => none
      | some (nameB, rest1) =>
        match splitNul rest1 with
        | none => none
        | some (digits, rest2) =>
          match parseDec digits with
          | none => none
          | some n =>
            match readSegs n rest2 with
            | none => none
            | some (els, rest3) => if rest3 = [] then some (nameB, n, els) else none
    else none

theorem utf8Bytes_append (a b : String) :
    utf8Bytes (a ++ b) = utf8Bytes a ++ utf8Bytes b := by
  simp [utf8Bytes, String.data_append]

theorem splitNul_append (xs ys : List Nat) (h : (0 : Nat) ∉ xs) :
    splitNul (xs ++ 0 :: ys) = some (xs, ys) := by
  induction xs with
  | nil => simp [splitNul]
  | cons x xs ih =>
    have hx : ¬x = 0 := fun he => h (by simp [he])
    have ht : (0 : Nat) ∉ xs := fun hm => h (List.mem_cons_of_mem x hm)
    simp [splitNul, hx, ih ht]

theorem parseDecAux_append (xs ys : List Nat) (acc : Nat) :
    parseDecAux (xs ++ ys) acc =
      match parseDecAux xs acc with
      | none => none
      | some a => parseDecAux ys a := by
  induction xs generalizing acc with
  | nil => simp [parseDecAux]
  | cons d ds ih =>
    by_cases hd : 48 ≤ d ∧ d ≤ 57
    · simp [parseDecAux, hd, ih]
    · simp [parseDecAux, hd]

theorem natDigitsFuel_parse (fuel : Nat) :
    ∀ n acc : Nat, n < fuel →
      parseDecAux ((natDigitsFuel fuel n).map (fun d => d + 48)) acc =
        some (acc * 10 ^ (natDigitsFuel fuel n).length + n) := by
  induction fuel with
  | zero => intro n acc h; omega
  | succ fuel ih =>
    intro n acc h
    by_cases h10 : n < 10
    · have hc : 48 ≤ n + 48 ∧ n + 48 ≤ 57 := by omega
      simp [natDigitsFuel, h10, parseDecAux, hc]
    · have hdiv : n / 10 < fuel := by
        have h1 : n / 10 < n := Nat.div_lt_self (by omega) (by omega)
        omega
      have hrw := parseDecAux_append
        ((natDigitsFuel fuel (n / 10)).map (fun d => d + 48)) [n % 10 + 48] acc
      have hc : 48 ≤ n % 10 + 48 ∧ n % 10 + 48 ≤ 57 := by omega
      have hdm : n / 10 * 10 + n % 10 = n := by omega
      simp only [natDigitsFuel]
      rw [if_neg h10]
      simp only [List.map_append, List.map_cons, List.map_nil, List.length_append,
        List.length_cons, List.length_nil]
      rw [hrw, ih (n / 10) acc hdiv]
      simp [parseDecAux, hc]
      calc (acc * 10 ^ (natDigitsFuel fuel (n / 10)).length + n / 10) * 10 + (n % 10 + 48 - 48)
          = acc * (10 ^ (natDigitsFuel fuel (n / 10)).length * 10) + (n / 10 * 10 + n % 10) := by
            ring_nf; omega
        _ = acc * 10 ^ ((natDigitsFuel fuel (n / 10)).length + 1) + n := by
            rw [hdm, pow_succ]

theorem natDigitsFuel_ne_nil (n : Nat) : natDigitsFuel (n + 1) n ≠ [] := by
  by_cases h10 : n < 10 <;> simp [natDigitsFuel, h10]

theorem parseDec_decBytes (n : Nat) : parseDec (decBytes n) = some n := by
  have h0 : parseDecAux (decBytes n) 0 = some n := by
    have h := natDigitsFuel_parse (n + 1) n 0 (Nat.lt_succ_self n)
    simpa [decBytes] using h
  cases hd : decBytes n with
  | nil =>
    exact absurd (by simpa [decBytes] using hd) (natDigitsFuel_ne_nil n)
  | cons b bs =>
    have h1 : parseDec (b :: bs) = parseDecAux (b :: bs) 0 := rfl
    rw [hd] at h0
    rw [h1]
    exact h0

theorem zero_not_mem_decBytes (n : Nat) : (0 : Nat) ∉ decBytes n := by
  intro h
  simp only [decBytes, List.mem_map] at h
  obtain ⟨d, _, hd⟩ := h
  omega

theorem decodeF_record (nameB digits body : List Nat) (n : Nat)
    (hn : (0 : Nat) ∉ nameB) (hd : (0 : Nat) ∉ digits)
    (hp : parseDec digits = some n) (hb : body.length = n) :
    decodeF (70 :: (nameB ++ 0 :: (digits ++ 0 :: (body ++ [0])))) =
      some (nameB, n, body) := by
  simp only [decodeF, if_pos rfl]
  rw [splitNul_append _ _ hn]
  simp only
  rw [splitNul_append _ _ hd]
  simp only
  rw [hp]
  simp only
  have hlen : (body ++ [0]).length = n + 1 := by simp [hb]
  have hdrop : (body ++ [0]).drop n = [0] := List.drop_left' hb
  have htake : (body ++ [0]).take n = body := List.take_left' hb
  rw [htake]
  simp [hlen, hdrop]

theorem readSegs_flat (els : List (List Nat)) (rest : List Nat)
    (h : ∀ e ∈ els, (0 : Nat) ∉ e) :
    readSegs els.length ((els.map (fun e => e ++ [0])).flatten ++ rest) =
      some (els, rest) := by
  induction els with
  | nil => simp [readSegs]
  | cons e els ih =>
    have he : (0 : Nat) ∉ e := h e (List.mem_cons_self e els)
    have ht : ∀ x ∈ els, (0 : Nat) ∉ x := fun x hx => h x (List.mem_cons_of_mem e hx)
    have hshape :
        (((e :: els).map (fun e => e ++ [0])).flatten ++ rest) =
          e ++ 0 :: ((els.map (fun e => e ++ [0])).flatten ++ rest) := by
      simp [List.append_assoc]
    rw [hshape]
    simp only [List.length_cons, readSegs]
    rw [splitNul_append _ _ he]
    simp only
    rw [ih ht]

theorem decodeV_record (nameB digits : List Nat) (n : Nat) (els : List (List Nat))
    (hn : (0 : Nat) ∉ nameB) (hd : (0 : Nat) ∉ digits)
    (hp : parseDec digits = some n) (hlen : els.length = n)
    (hels : ∀ e ∈ els, (0 : Nat) ∉ e) :
    decodeV (86 :: (nameB ++ 0 :: (digits ++ 0 :: (els.map (fun e => e ++ [0])).flatten))) =
      some (nameB, n, els) := by
  simp only [decodeV, if_pos rfl]
  rw [splitNul_append _ _ hn]
  simp only
  rw [splitNul_append _ _ hd]
  simp only
  rw [hp]
  simp only
  have hr : (els.map (fun e => e ++ [0])).flatten =
      (els.map (fun e => e ++ [0])).flatten ++ [] := by simp
  rw [hr, ← hlen, readSegs_flat els [] hels]
  simp

theorem nulJoin_append_nul (x : List Nat) (xs : List (List Nat)) :
    nulJoin (x :: xs) ++ [0] = x ++ 0 :: (xs.map (fun e => e ++ [0])).flatten := by
  induction xs generalizing x with
  | nil => simp [nulJoin]
  | cons y ys ih =>
    calc nulJoin (x :: y :: ys) ++ [0]
        = x ++ 0 :: (nulJoin (y :: ys) ++ [0]) := by
          simp [nulJoin, List.append_assoc]
      _ = x ++ 0 :: (y ++ 0 :: (ys.map (fun e => e ++ [0])).flatten) := by rw [ih y]
      _ = x ++ 0 :: ((y :: ys).map (fun e => e ++ [0])).flatten := by
          simp [List.append_assoc]

/-- Claim C1: for every field name and non-empty scalar text value s, the field
encoder produces exactly the record "F" + name, the decimal UTF-8 byte length
of s, and s itself, NUL-separated with a trailing NUL; and decoding that
record recovers the name, a count equal to the UTF-8 byte length of s, and
the bytes of s.  The name is assumed NUL-free, as the wire format requires
for its NUL-delimited name segment to be decodable. -/
theorem claim_C1 (name s : String) (hs : s ≠ "")
    (hn : (0 : Nat) ∉ utf8Bytes name) :
    format_payload name (PyVal.str s) =
      utf8Bytes ("F" ++ name) ++ [0] ++ decBytes (utf8Bytes s).length ++ [0]
        ++ utf8Bytes s ++ [0]
    ∧ decodeF (format_payload name (PyVal.str s)) =
        some (utf8Bytes name, (utf8Bytes s).length, utf8Bytes s) := by
  have hrec : format_payload name (PyVal.str s) =
      utf8Bytes ("F" ++ name) ++ [0] ++ decBytes (utf8Bytes s).length ++ [0]
        ++ utf8Bytes s ++ [0] := by
    simp [format_payload, hs]
  refine ⟨hrec, ?_⟩
  have hshape : utf8Bytes ("F" ++ name) ++ [0] ++ decBytes (utf8Bytes s).length ++ [0]
        ++ utf8Bytes s ++ [0]
      = 70 :: (utf8Bytes name ++ 0 ::
          (decBytes (utf8Bytes s).length ++ 0 :: (utf8Bytes s ++ [0]))) := by
    rw [utf8Bytes_append]
    show [70] ++ utf8Bytes name ++ [0] ++ _ ++ [0] ++ _ ++ [0] = _
    simp [List.append_assoc]
  rw [hrec, hshape]
  exact decodeF_record (utf8Bytes name) (decBytes (utf8Bytes s).length)
    (utf8Bytes s) (utf8Bytes s).length hn
    (zero_not_mem_decBytes (utf8Bytes s).length)
    (parseDec_decBytes (utf8Bytes s).length) rfl

theorem claim_C1_w :
    ("hé" ≠ "" ∧ (0 : Nat) ∉ utf8Bytes ".code.tio")
    ∧ (format_payload ".code.tio" (PyVal.str "hé") =
        utf8Bytes ("F" ++ ".code.tio") ++ [0] ++ decBytes (utf8Bytes "hé").length ++ [0]
          ++ utf8Bytes "hé" ++ [0]
      ∧ decodeF (format_payload ".code.tio" (PyVal.str "hé")) =
          some (utf8Bytes ".code.tio", (utf8Bytes "hé").length, utf8Bytes "hé")) :=
  ⟨⟨by decide, by decide⟩, claim_C1 ".code.tio" "hé" (by decide) (by decide)⟩

/-- Claim C2: for every field name and non-empty list of strings of length n,
the field encoder produces exactly the record "V" + name, then n as decimal
text, then the n elements in order, each part separated by a single NUL byte
with a trailing NUL; and decoding that record yields a declared count equal
to n with exactly the n elements following it.  Name and elements are
assumed NUL-free, as the NUL-delimited wire format requires. -/
theorem claim_C2 (name : String) (xs : List String) (hne : xs ≠ [])
    (hn : (0 : Nat) ∉ utf8Bytes name)
    (hxs : ∀ x ∈ xs, (0 : Nat) ∉ utf8Bytes x) :
    format_payload name (PyVal.list xs) =
      utf8Bytes ("V" ++ name) ++ 0 :: (decBytes xs.length ++ 0 ::
        ((xs.map utf8Bytes).map (fun e => e ++ [0])).flatten)
    ∧ decodeV (format_payload name (PyVal.list xs)) =
        some (utf8Bytes name, xs.length, xs.map utf8Bytes) := by
  have hrec : format_payload name (PyVal.list xs) =
      nulJoin ([utf8Bytes ("V" ++ name), decBytes xs.length] ++ xs.map utf8Bytes)
        ++ [0] := by
    simp [format_payload, hne]
  have hshape :
      nulJoin ([utf8Bytes ("V" ++ name), decBytes xs.length] ++ xs.map utf8Bytes)
        ++ [0]
      = utf8Bytes ("V" ++ name) ++ 0 :: (decBytes xs.length ++ 0 ::
          ((xs.map utf8Bytes).map (fun e => e ++ [0])).flatten) := by
    rw [show ([utf8Bytes ("V" ++ name), decBytes xs.length] ++ xs.map utf8Bytes)
        = utf8Bytes ("V" ++ name) :: (decBytes xs.length :: xs.map utf8Bytes) from rfl]
    rw [nulJoin_append_nul]
    simp [List.append_assoc]
  refine ⟨hrec.trans hshape, ?_⟩
  rw [hrec, hshape]
  have hV : utf8Bytes ("V" ++ name) ++ 0 :: (decBytes xs.length ++ 0 ::
        ((xs.map utf8Bytes).map (fun e => e ++ [0])).flatten)
      = 86 :: (utf8Bytes name ++ 0 :: (decBytes xs.length ++ 0 ::
          ((xs.map utf8Bytes).map (fun e => e ++ [0])).flatten)) := by
    rw [utf8Bytes_append]
    rfl
  rw [hV]
  refine decodeV_record (utf8Bytes name) (decBytes xs.length) xs.length
    (xs.map utf8Bytes) hn (zero_not_mem_decBytes xs.length)
    (parseDec_decBytes xs.length) (List.length_map xs utf8Bytes) ?_
  intro e he
  obtain ⟨x, hx, hxe⟩ := List.mem_map.mp he
  exact hxe ▸ hxs x hx

theorem claim_C2_w :
    ((["-O2", "-Wall"] : List String) ≠ [] ∧ (0 : Nat) ∉ utf8Bytes "TIO_CFLAGS"
      ∧ ∀ x ∈ (["-O2", "-Wall"] : List String), (0 : Nat) ∉ utf8Bytes x)
    ∧ (format_payload "TIO_CFLAGS" (PyVal.list ["-O2", "-Wall"]) =
        utf8Bytes ("V" ++ "TIO_CFLAGS") ++ 0 :: (decBytes (["-O2", "-Wall"] : List String).length ++ 0 ::
          (((["-O2", "-Wall"] : List String).map utf8Bytes).map (fun e => e ++ [0])).flatten)
      ∧ decodeV (format_payload "TIO_CFLAGS" (PyVal.list ["-O2", "-Wall"])) =
          some (utf8Bytes "TIO_CFLAGS", (["-O2", "-Wall"] : List String).length,
            (["-O2", "-Wall"] : List String).map utf8Bytes)) :=
  ⟨⟨by decide, by decide, by decide⟩,
    claim_C2 "TIO_CFLAGS" ["-O2", "-Wall"] (by decide) (by decide) (by decide)⟩

/-- Claim C3: for every field name, encoding an empty string or an empty list
produces zero bytes: the field contributes nothing to the payload. -/
theorem claim_C3 (name : String) :
    format_payload name (PyVal.str "") = []
    ∧ format_payload name (PyVal.list []) = [] := by
  constructor <;> simp [format_payload]

/-- Boolean test that the first list is a prefix of the second. -/
def listPrefixOf : List Char → List Char → Bool
  | [], _ => true
  | _ :: _, [] => false
  | x :: xs, y :: ys => if x = y then listPrefixOf xs ys else false

/-- Boolean test that the first list occurs as a contiguous run inside the
second: the meaning of the Python expression a in b for strings a, b. -/
def listInfixOf (xs : List Char) : List Char → Bool
  | [] => xs.isEmpty
  | y :: ys => listPrefixOf xs (y :: ys) || listInfixOf xs ys

/-- Language resolution step of Tio.execute: an identifier that is an exact
member of the stored catalog is kept; otherwise the catalog is filtered in
stored order for entries containing the identifier as a substring and the
first match is used; with no match the identifier passes through unchanged. -/
def resolveLanguage (catalog : List String) (language : String) : String :=
  if language ∈ catalog then language
  else
    match catalog.filter (fun l => listInfixOf language.data l.data) with
    | [] => language
    | m :: _ => m

/-- The six keyword fields of Tio.execute, in source order. -/
structure RequestData where
  language : String
  code : String
  inputs : String
  compiler_flags : List String
  Cl_options : List String
  arguments : List String

/-- The ordered field dictionary built inside Tio.execute. -/
def payloadFields (r : RequestData) : List (String × PyVal) :=
  [("lang", PyVal.list [r.language]),
   (".code.tio", PyVal.str r.code),
   (".input.tio", PyVal.str r.inputs),
   ("TIO_CFLAGS", PyVal.list r.compiler_flags),
   ("TIO_OPTIONS", PyVal.list r.Cl_options),
   ("args", PyVal.list r.arguments)]

/-- The pre-compression payload of Tio.execute: the encoded field records
joined with no extra separator, followed by the single terminator byte
R (value 82). -/
def buildPayload (r : RequestData) : List Nat :=
  ((payloadFields r).map (fun p => format_payload p.1 p.2)).flatten ++ [82]

/-- The pre-compression payload of a Tio.execute call with the given
arguments against the given catalog: the language is resolved first, then
the six fields are serialized in their fixed order. -/
def requestBytes (catalog : List String) (code language inputs : String)
    (compiler_flags Cl_options arguments : List String) : List Nat :=
  buildPayload
    ⟨resolveLanguage catalog language, code, inputs, compiler_flags, Cl_options, arguments⟩

/-- Python byte slicing c[2:-4]: the compressed stream with its 2-byte zlib
header and 4-byte Adler-32 trailer removed. -/
def stripZlibFraming (c : List Nat) : List Nat :=
  (c.drop 2).take (c.length - 6)

/-- The HTTP POST body of Tio.execute: zlib.compress(payload, 9)[2:-4].  The
zlib compressor is an external library routine, modelled as an arbitrary
pure function on byte lists. -/
def compressedBody (compressFn : List Nat → List Nat) (payload : List Nat) : List Nat :=
  stripZlibFraming (compressFn payload)

/-- Claim C4: for every execute call, the pre-compression payload is exactly
the concatenation of the encoded records of the six fields in the fixed
order language, code, input, compiler flags, runtime options, arguments,
with no separator beyond each record's own trailing NUL, followed by the
single trailing byte R (82). -/
theorem claim_C4 (catalog : List String) (code language inputs : String)
    (compiler_flags Cl_options arguments : List String) :
    requestBytes catalog code language inputs compiler_flags Cl_options arguments =
      format_payload "lang" (PyVal.list [resolveLanguage catalog language])
      ++ format_payload ".code.tio" (PyVal.str code)
      ++ format_payload ".input.tio" (PyVal.str inputs)
      ++ format_payload "TIO_CFLAGS" (PyVal.list compiler_flags)
      ++ format_payload "TIO_OPTIONS" (PyVal.list Cl_options)
      ++ format_payload "args" (PyVal.list arguments)
      ++ [82] := by
  simp [requestBytes, buildPayload, payloadFields, List.append_assoc]

/-- Claim C5: the POST body is the compressed stream with the 2-byte
container header and the 4-byte checksum footer stripped; and, the
compressor being a pure function of the payload bytes, compressing the same
payload twice yields identical output bytes. -/
theorem claim_C5 (compressFn : List Nat → List Nat) (p h mid t : List Nat)
    (hc : compressFn p = h ++ mid ++ t) (hh : h.length = 2) (ht : t.length = 4) :
    compressedBody compressFn p = mid
    ∧ ∀ q : List Nat, q = p →
        compressedBody compressFn q = compressedBody compressFn p := by
  constructor
  · unfold compressedBody stripZlibFraming
    rw [hc]
    have hdrop : (h ++ mid ++ t).drop 2 = mid ++ t := by
      rw [List.append_assoc]
      exact List.drop_left' hh
    have hlen : (h ++ mid ++ t).length - 6 = mid.length := by
      simp only [List.length_append]
      omega
    rw [hdrop, hlen]
    exact List.take_left mid t
  · intro q hq
    rw [hq]

theorem claim_C5_w :
    ((fun _ : List Nat => [9, 9, 3, 4, 5, 6, 7, 8, 9]) [1] =
        [9, 9] ++ [3, 4, 5] ++ [6, 7, 8, 9]
      ∧ ([9, 9] : List Nat).length = 2 ∧ ([6, 7, 8, 9] : List Nat).length = 4)
    ∧ (compressedBody (fun _ : List Nat => [9, 9, 3, 4, 5, 6, 7, 8, 9]) [1] = [3, 4, 5]
      ∧ ∀ q : List Nat, q = [1] →
          compressedBody (fun _ : List Nat => [9, 9, 3, 4, 5, 6, 7, 8, 9]) q =
            compressedBody (fun _ : List Nat => [9, 9, 3, 4, 5, 6, 7, 8, 9]) [1]) :=
  ⟨⟨by decide, by decide, by decide⟩,
    claim_C5 (fun _ : List Nat => [9, 9, 3, 4, 5, 6, 7, 8, 9]) [1]
      [9, 9] [3, 4, 5] [6, 7, 8, 9] (by decide) (by decide) (by decide)⟩

/-- Claim C6: an identifier that is an exact catalog member is used
unchanged; otherwise the first catalog entry (in stored order) containing
the identifier as a substring is used; otherwise, including for an empty
catalog, the identifier passes through unchanged with no client-side
rejection. -/
theorem claim_C6 (catalog : List String) (language : String) :
    (language ∈ catalog → resolveLanguage catalog language = language)
    ∧ (∀ pre m rest, catalog = pre ++ m :: rest → language ∉ catalog →
        (∀ l ∈ pre, listInfixOf language.data l.data = false) →
        listInfixOf language.data m.data = true →
        resolveLanguage catalog language = m)
    ∧ (language ∉ catalog →
        (∀ l ∈ catalog, listInfixOf language.data l.data = false) →
        resolveLanguage catalog language = language) := by
  refine ⟨?_, ?_, ?_⟩
  · intro h
    simp [resolveLanguage, h]
  · intro pre m rest hcat hnot hpre hm
    have h1 : ∀ a ∈ pre, ¬(fun l => listInfixOf language.data l.data) a = true :=
      fun a ha => by simp [hpre a ha]
    have hfilter : catalog.filter (fun l => listInfixOf language.data l.data) =
        m :: rest.filter (fun l => listInfixOf language.data l.data) := by
      rw [hcat, List.filter_append, List.filter_eq_nil_iff.mpr h1]
      simp [List.filter_cons, hm]
    simp [resolveLanguage, hnot, hfilter]
  · intro hnot hall
    have hfilter : catalog.filter (fun l => listInfixOf language.data l.data) = [] :=
      List.filter_eq_nil_iff.mpr (fun a ha => by simp [hall a ha])
    simp [resolveLanguage, hnot, hfilter]

theorem claim_C6_w :
    resolveLanguage ["python3", "python2", "py"] "python3" = "python3"
    ∧ resolveLanguage ["python3", "python2", "py"] "pyth" = "python3"
    ∧ resolveLanguage [] "rust" = "rust" :=
  ⟨(claim_C6 ["python3", "python2", "py"] "python3").1 (by decide),
   (claim_C6 ["python3", "python2", "py"] "pyth").2.1 [] "python3" ["python2", "py"]
     rfl (by decide) (by decide) (by decide),
   (claim_C6 [] "rust").2.2 (by decide) (by decide)⟩

/-- Claim C10: in every serialized request the language field is a
sequence record with the exact bytes V l a n g NUL 1 NUL language NUL
(count 1, single resolved identifier), standing at the head of the payload,
while the code and input fields (when non-empty) are scalar F-prefixed
byte-length-counted records. -/
theorem claim_C10 (catalog : List String) (code language inputs : String)
    (compiler_flags Cl_options arguments : List String)
    (hcode : code ≠ "") (hinputs : inputs ≠ "") :
    format_payload "lang" (PyVal.list [resolveLanguage catalog language]) =
      [86, 108, 97, 110, 103, 0, 49, 0]
        ++ utf8Bytes (resolveLanguage catalog language) ++ [0]
    ∧ (∃ rest,
        requestBytes catalog code language inputs compiler_flags Cl_options arguments =
          [86, 108, 97, 110, 103, 0, 49, 0]
            ++ utf8Bytes (resolveLanguage catalog language) ++ [0] ++ rest)
    ∧ format_payload ".code.tio" (PyVal.str code) =
        70 :: utf8Bytes ".code.tio" ++ [0] ++ decBytes (utf8Bytes code).length ++ [0]
          ++ utf8Bytes code ++ [0]
    ∧ format_payload ".input.tio" (PyVal.str inputs) =
        70 :: utf8Bytes ".input.tio" ++ [0] ++ decBytes (utf8Bytes inputs).length ++ [0]
          ++ utf8Bytes inputs ++ [0] := by
  have hlang : ∀ l : String, format_payload "lang" (PyVal.list [l]) =
      [86, 108, 97, 110, 103, 0, 49, 0] ++ utf8Bytes l ++ [0] := fun l => rfl
  refine ⟨hlang _, ?_, ?_, ?_⟩
  · refine ⟨format_payload ".code.tio" (PyVal.str code)
      ++ format_payload ".input.tio" (PyVal.str inputs)
      ++ format_payload "TIO_CFLAGS" (PyVal.list compiler_flags)
      ++ format_payload "TIO_OPTIONS" (PyVal.list Cl_options)
      ++ format_payload "args" (PyVal.list arguments) ++ [82], ?_⟩
    rw [show requestBytes catalog code language inputs compiler_flags Cl_options arguments
        = format_payload "lang" (PyVal.list [resolveLanguage catalog language])
          ++ format_payload ".code.tio" (PyVal.str code)
          ++ format_payload ".input.tio" (PyVal.str inputs)
          ++ format_payload "TIO_CFLAGS" (PyVal.list compiler_flags)
          ++ format_payload "TIO_OPTIONS" (PyVal.list Cl_options)
          ++ format_payload "args" (PyVal.list arguments)
          ++ [82] from by simp [requestBytes, buildPayload, payloadFields, List.append_assoc]]
    rw [hlang]
    simp [List.append_assoc]
  · show (if code = "" then []
      else utf8Bytes ("F" ++ ".code.tio") ++ [0] ++ decBytes (utf8Bytes code).length
        ++ [0] ++ utf8Bytes code ++ [0]) = _
    rw [if_neg hcode]
    rfl
  · show (if inputs = "" then []
      else utf8Bytes ("F" ++ ".input.tio") ++ [0] ++ decBytes (utf8Bytes inputs).length
        ++ [0] ++ utf8Bytes inputs ++ [0]) = _
    rw [if_neg hinputs]
    rfl

theorem claim_C10_w :
    ("print(1)" ≠ "" ∧ "abc" ≠ "")
    ∧ (format_payload "lang" (PyVal.list [resolveLanguage ["python3"] "python3"]) =
        [86, 108, 97, 110, 103, 0, 49, 0]
          ++ utf8Bytes (resolveLanguage ["python3"] "python3") ++ [0]
      ∧ (∃ rest,
          requestBytes ["python3"] "print(1)" "python3" "abc" [] [] [] =
            [86, 108, 97, 110, 103, 0, 49, 0]
              ++ utf8Bytes (resolveLanguage ["python3"] "python3") ++ [0] ++ rest)
      ∧ format_payload ".code.tio" (PyVal.str "print(1)") =
          70 :: utf8Bytes ".code.tio" ++ [0] ++ decBytes (utf8Bytes "print(1)").length
            ++ [0] ++ utf8Bytes "print(1)" ++ [0]
      ∧ format_payload ".input.tio" (PyVal.str "abc") =
          70 :: utf8Bytes ".input.tio" ++ [0] ++ decBytes (utf8Bytes "abc").length
            ++ [0] ++ utf8Bytes "abc" ++ [0]) :=
  ⟨⟨by decide, by decide⟩,
    claim_C10 ["python3"] "print(1)" "python3" "abc" [] [] [] (by decide) (by decide)⟩

/-- The single-quote character (code point 39). -/
def sqChar : Char := Char.ofNat 39

/-- The newline character (code point 10): the one character a dot in the
source's regular expression does not match. -/
def nlChar : Char := Char.ofNat 10

/-- The literal head of the not-found pattern. -/
def headLit : List Char := "The language".data

/-- The literal tail of the not-found pattern, up to the final
any-character dot of the regular expression. -/
def tailLit : List Char := "could not be found on the server".data

/-- Match the closing words of the pattern followed by one arbitrary
non-newline character (the final regex dot). -/
def matchEnd (cs : List Char) : Bool :=
  if listPrefixOf tailLit cs then
    match cs.drop tailLit.length with
    | [] => false
    | c :: _ => if c = nlChar then false else true
  else false

/-- Match the closing quote, an optional space, and the pattern tail. -/
def matchClose (cs : List Char) : Bool :=
  match cs with
  | [] => false
  | c :: rest =>
    if c = sqChar then
      matchEnd rest ||
        (match rest with
         | [] => false
         | d :: rest2 => if d = ' ' then matchEnd rest2 else false)
    else false

/-- Match one or more non-newline characters followed by a closing part:
the .+ of the regular expression together with what follows it. -/
def matchMid : List Char → Bool
  | [] => false
  | c :: rest => if c = nlChar then false else (matchClose rest || matchMid rest)

/-- Match the opening quote and everything after it. -/
def matchQuote (cs : List Char) : Bool :=
  match cs with
  | [] => false
  | c :: rest => if c = sqChar then matchMid rest else false

/-- Match the optional space after the pattern head, then the quoted part. -/
def matchAfterHead (cs : List Char) : Bool :=
  matchQuote cs ||
    (match cs with
     | [] => false
     | c :: rest => if c = ' ' then matchQuote rest else false)

/-- Match the whole not-found pattern starting exactly at this position. -/
def matchAt (cs : List Char) : Bool :=
  if listPrefixOf headLit cs then matchAfterHead (cs.drop headLit.length)
  else false

/-- Python re.search of the raw pattern
The language ?(quote).+(quote) ?could not be found on the server(dot)
over the body text: true exactly when some position of the text begins an
occurrence of the pattern. -/
def searchPat : List Char → Bool
  | [] => false
  | c :: rest => matchAt (c :: rest) || searchPat rest

/-- Shape of an HTTP response as the tail of Tio.execute consumes it: the
ok flag, the status code, the reason phrase and the decoded UTF-8 body. -/
structure HttpResponse where
  ok : Bool
  status : Nat
  reason : String
  body : String

/-- Outcome of Tio.execute once the POST has returned.  Modelled from the
spec: the exception classes LanguageNotFound and ApiError live in the
package's exceptions module, which is absent from the sources; per the spec
they carry the message text handed to them, recorded here as the
constructor argument.  A successful call returns a response object built
from the body text and the resolved language, recorded likewise. -/
inductive ExecOutcome where
  | apiError (msg : String)
  | languageNotFound (msg : String)
  | success (body : String) (language : String)
  deriving DecidableEq

/-- The response-handling tail of Tio.execute: a non-ok status raises
ApiError with the message Error {status}, {reason}; an ok response whose
body matches the not-found pattern raises LanguageNotFound carrying the
body text from character 16 on; any other body yields a successful result
built from the body and the resolved language. -/
def executeModel (catalog : List String) (language : String)
    (resp : HttpResponse) : ExecOutcome :=
  if resp.ok then
    if searchPat resp.body.data then
      ExecOutcome.languageNotFound (String.mk (resp.body.data.drop 16))
    else ExecOutcome.success resp.body (resolveLanguage catalog language)
  else ExecOutcome.apiError ("Error " ++ natToStr resp.status ++ ", " ++ resp.reason)

/-- The canonical not-found body for a given language name, with the name
quoted and the spaces present. -/
def canonicalMsg (name : List Char) : List Char :=
  "The language ".data ++ [sqChar] ++ name ++ [sqChar]
    ++ " could not be found on the server.".data

/-- The not-found body with the optional spaces around the quoted name
omitted. -/
def noSpaceMsg (name : List Char) : List Char :=
  "The language".data ++ [sqChar] ++ name ++ [sqChar]
    ++ "could not be found on the server.".data

theorem listPrefixOf_append_self (xs ys : List Char) :
    listPrefixOf xs (xs ++ ys) = true := by
  induction xs with
  | nil => rfl
  | cons x xs ih => simp [listPrefixOf, ih]

theorem listInfixOf_mid (as xs bs : List Char) :
    listInfixOf xs (as ++ (xs ++ bs)) = true := by
  induction as with
  | nil =>
    cases hx : xs ++ bs with
    | nil =>
      have h := List.append_eq_nil.mp hx
      simp [h.1, listInfixOf]
    | cons y ys =>
      have hp : listPrefixOf xs (y :: ys) = true := hx ▸ listPrefixOf_append_self xs bs
      simp [listInfixOf, hp]
  | cons a as ih =>
    rw [List.cons_append,
      show listInfixOf xs (a :: (as ++ (xs ++ bs)))
        = (listPrefixOf xs (a :: (as ++ (xs ++ bs))) || listInfixOf xs (as ++ (xs ++ bs)))
        from rfl,
      ih, Bool.or_true]

theorem matchMid_extend (xyz rest : List Char) (hne : xyz ≠ [])
    (hnl : ∀ c ∈ xyz, c ≠ nlChar) (hclose : matchClose rest = true) :
    matchMid (xyz ++ rest) = true := by
  induction xyz with
  | nil => exact absurd rfl hne
  | cons c tl ih =>
    have hc : ¬c = nlChar := hnl c (List.mem_cons_self c tl)
    cases tl with
    | nil =>
      rw [show matchMid ((c :: []) ++ rest)
          = (if c = nlChar then false else (matchClose rest || matchMid rest)) from rfl,
        if_neg hc, hclose, Bool.true_or]
    | cons d tl2 =>
      have ih2 := ih (by simp) (fun x hx => hnl x (List.mem_cons_of_mem c hx))
      rw [show matchMid ((c :: d :: tl2) ++ rest)
          = (if c = nlChar then false
             else (matchClose ((d :: tl2) ++ rest) || matchMid ((d :: tl2) ++ rest)))
          from rfl,
        if_neg hc, ih2, Bool.or_true]

theorem searchPat_head (cs : List Char) (h : matchAt cs = true) (hne : cs ≠ []) :
    searchPat cs = true := by
  cases cs with
  | nil => exact absurd rfl hne
  | cons c rest => simp [searchPat, h]

theorem matchQuote_build (m : List Char) (h : matchMid m = true) :
    matchQuote (sqChar :: m) = true := by
  rw [show matchQuote (sqChar :: m) = (if sqChar = sqChar then matchMid m else false)
    from rfl, if_pos rfl, h]

theorem matchAfterHead_space (z : List Char) (h : matchQuote z = true) :
    matchAfterHead (' ' :: z) = true := by
  rw [show matchAfterHead (' ' :: z)
      = (matchQuote (' ' :: z) || (if ' ' = ' ' then matchQuote z else false)) from rfl,
    if_pos rfl, h, Bool.or_true]

theorem matchAfterHead_quote (z : List Char) (h : matchQuote z = true) :
    matchAfterHead z = true := by
  unfold matchAfterHead
  rw [h, Bool.true_or]

theorem matchAt_build (z : List Char) (h : matchAfterHead z = true) :
    matchAt (headLit ++ z) = true := by
  unfold matchAt
  rw [if_pos (listPrefixOf_append_self headLit z), List.drop_left, h]

theorem searchPat_canonical (xyz : List Char) (hne : xyz ≠ [])
    (hnl : ∀ c ∈ xyz, c ≠ nlChar) :
    searchPat (canonicalMsg xyz) = true := by
  have hclose : matchClose
      ([sqChar] ++ " could not be found on the server.".data) = true := by decide
  have hmid : matchMid
      (xyz ++ ([sqChar] ++ " could not be found on the server.".data)) = true :=
    matchMid_extend xyz _ hne hnl hclose
  have hsplit : "The language ".data = "The language".data ++ [' '] := by decide
  have hZ : canonicalMsg xyz = headLit ++ (' ' :: sqChar ::
      (xyz ++ ([sqChar] ++ " could not be found on the server.".data))) := by
    simp only [canonicalMsg, headLit, hsplit, List.append_assoc,
      List.singleton_append, List.cons_append, List.nil_append]
  have hAt : matchAt (canonicalMsg xyz) = true := by
    rw [hZ]
    exact matchAt_build _ (matchAfterHead_space _ (matchQuote_build _ hmid))
  refine searchPat_head _ hAt ?_
  rw [hZ]
  intro habs
  exact absurd (List.append_eq_nil.mp habs).1 (by decide)

theorem searchPat_noSpace (xyz : List Char) (hne : xyz ≠ [])
    (hnl : ∀ c ∈ xyz, c ≠ nlChar) :
    searchPat (noSpaceMsg xyz) = true := by
  have hclose : matchClose
      ([sqChar] ++ "could not be found on the server.".data) = true := by decide
  have hmid : matchMid
      (xyz ++ ([sqChar] ++ "could not be found on the server.".data)) = true :=
    matchMid_extend xyz _ hne hnl hclose
  have hZ : noSpaceMsg xyz = headLit ++ (sqChar ::
      (xyz ++ ([sqChar] ++ "could not be found on the server.".data))) := by
    simp only [noSpaceMsg, headLit, List.append_assoc,
      List.singleton_append, List.cons_append, List.nil_append]
  have hAt : matchAt (noSpaceMsg xyz) = true := by
    rw [hZ]
    exact matchAt_build _ (matchAfterHead_quote _ (matchQuote_build _ hmid))
  refine searchPat_head _ hAt ?_
  rw [hZ]
  intro habs
  exact absurd (List.append_eq_nil.mp habs).1 (by decide)

theorem matchQuote_no_sq (cs : List Char) (h : sqChar ∉ cs) :
    matchQuote cs = false := by
  cases cs with
  | nil => rfl
  | cons c rest =>
    have hc : ¬c = sqChar := fun he => h (by simp [he])
    simp [matchQuote, hc]

theorem matchAfterHead_no_sq (cs : List Char) (h : sqChar ∉ cs) :
    matchAfterHead cs = false := by
  cases cs with
  | nil => simp [matchAfterHead, matchQuote]
  | cons c rest =>
    have h2 : sqChar ∉ rest := fun hm => h (List.mem_cons_of_mem c hm)
    by_cases hc : c = ' '
    · subst hc
      simp [matchAfterHead, matchQuote_no_sq _ h, matchQuote_no_sq _ h2]
    · simp [matchAfterHead, matchQuote_no_sq _ h, hc]

theorem matchAt_no_sq (cs : List Char) (h : sqChar ∉ cs) : matchAt cs = false := by
  by_cases hp : listPrefixOf headLit cs = true
  · have h2 : sqChar ∉ cs.drop headLit.length := fun hm => h (List.mem_of_mem_drop hm)
    simp [matchAt, hp, matchAfterHead_no_sq _ h2]
  · simp [matchAt, hp]

theorem searchPat_no_sq (cs : List Char) (h : sqChar ∉ cs) : searchPat cs = false := by
  induction cs with
  | nil => rfl
  | cons c rest ih =>
    have h2 : sqChar ∉ rest := fun hm => h (List.mem_cons_of_mem c hm)
    simp [searchPat, matchAt_no_sq _ h, ih h2]

/-- Claim C7 counterexample: for the body that is exactly the not-found
pattern with language name xyz, execute raises LanguageNotFound, but the
carried message (the body from character 16 on) does not contain the name
xyz, contrary to the claim: the slice cuts away the first two characters of
the name. -/
theorem claim_C7_cex :
    executeModel [] "xyz" ⟨true, 200, "OK", String.mk (canonicalMsg ['x', 'y', 'z'])⟩ =
      ExecOutcome.languageNotFound
        (String.mk ('z' :: sqChar :: " could not be found on the server.".data))
    ∧ listInfixOf ['x', 'y', 'z']
        ('z' :: sqChar :: " could not be found on the server.".data) = false := by
  constructor <;> decide

/-- Claim C7 (amended): an ok response whose body matches the not-found
pattern makes execute raise LanguageNotFound carrying the body text from
character 16 on (for a body that is exactly the pattern, this is the
language name stripped of its first two characters followed by the rest of
the message); any non-matching body is treated as a successful result
carrying the body and the resolved language. -/
theorem claim_C7_amended (catalog : List String) (language : String)
    (resp : HttpResponse) (hok : resp.ok = true) :
    (searchPat resp.body.data = true →
      executeModel catalog language resp =
        ExecOutcome.languageNotFound (String.mk (resp.body.data.drop 16)))
    ∧ (searchPat resp.body.data = false →
      executeModel catalog language resp =
        ExecOutcome.success resp.body (resolveLanguage catalog language))
    ∧ (∀ xyz : List Char, xyz ≠ [] → (∀ c ∈ xyz, c ≠ nlChar) →
        resp.body = String.mk (canonicalMsg xyz) →
        executeModel catalog language resp =
          ExecOutcome.languageNotFound (String.mk ((canonicalMsg xyz).drop 16))) := by
  refine ⟨?_, ?_, ?_⟩
  · intro hmatch
    simp [executeModel, hok, hmatch]
  · intro hmatch
    simp [executeModel, hok, hmatch]
  · intro xyz hne hnl hbody
    have hsearch : searchPat (canonicalMsg xyz) = true := searchPat_canonical xyz hne hnl
    simp [executeModel, hok, hbody, hsearch]

theorem claim_C7_amended_w :
    executeModel [] "abc" ⟨true, 200, "OK", String.mk (canonicalMsg ['a', 'b', 'c'])⟩ =
      ExecOutcome.languageNotFound (String.mk ((canonicalMsg ['a', 'b', 'c']).drop 16)) :=
  (claim_C7_amended [] "abc"
      ⟨true, 200, "OK", String.mk (canonicalMsg ['a', 'b', 'c'])⟩ rfl).2.2
    ['a', 'b', 'c'] (by decide) (by decide) rfl

/-- Claim C8 counterexample: a body of the form
The language xyz could not be found on the server. with the quote
characters omitted is NOT classified as a language-not-found error: it is
returned as a successful result.  The regular expression makes the spaces
around the quoted name optional, not the quotes. -/
theorem claim_C8_cex :
    executeModel [] "xyz"
        ⟨true, 200, "OK", "The language xyz could not be found on the server."⟩ =
      ExecOutcome.success
        "The language xyz could not be found on the server." "xyz" := by
  decide

/-- Claim C8 (amended): in the not-found pattern the quote characters are
required and the spaces around the quoted name are optional: a body with
the spaces omitted is still classified as LanguageNotFound, while an ok
body containing no quote character at all is treated as a successful
result. -/
theorem claim_C8_amended (catalog : List String) (language : String)
    (resp : HttpResponse) (hok : resp.ok = true) :
    (∀ xyz : List Char, xyz ≠ [] → (∀ c ∈ xyz, c ≠ nlChar) →
        resp.body = String.mk (noSpaceMsg xyz) →
        executeModel catalog language resp =
          ExecOutcome.languageNotFound (String.mk ((noSpaceMsg xyz).drop 16)))
    ∧ (sqChar ∉ resp.body.data →
        executeModel catalog language resp =
          ExecOutcome.success resp.body (resolveLanguage catalog language)) := by
  constructor
  · intro xyz hne hnl hbody
    have hsearch : searchPat (noSpaceMsg xyz) = true := searchPat_noSpace xyz hne hnl
    simp [executeModel, hok, hbody, hsearch]
  · intro hq
    have hsearch : searchPat resp.body.data = false := searchPat_no_sq _ hq
    simp [executeModel, hok, hsearch]

theorem claim_C8_amended_w :
    executeModel [] "abc" ⟨true, 200, "OK", String.mk (noSpaceMsg ['a', 'b', 'c'])⟩ =
      ExecOutcome.languageNotFound (String.mk ((noSpaceMsg ['a', 'b', 'c']).drop 16)) :=
  (claim_C8_amended [] "abc"
      ⟨true, 200, "OK", String.mk (noSpaceMsg ['a', 'b', 'c'])⟩ rfl).1
    ['a', 'b', 'c'] (by decide) (by decide) rfl

/-- Claim C9: an execute call whose POST comes back with a non-ok status
fails with ApiError whose message Error {status}, {reason} carries the
decimal status code and the reason phrase as substrings; no result is
produced and no retry exists (the model maps one response to one
outcome). -/
theorem claim_C9 (catalog : List String) (language : String)
    (resp : HttpResponse) (hok : resp.ok = false) :
    executeModel catalog language resp =
      ExecOutcome.apiError ("Error " ++ natToStr resp.status ++ ", " ++ resp.reason)
    ∧ listInfixOf (natToStr resp.status).data
        ("Error " ++ natToStr resp.status ++ ", " ++ resp.reason).data = true
    ∧ listInfixOf resp.reason.data
        ("Error " ++ natToStr resp.status ++ ", " ++ resp.reason).data = true := by
  refine ⟨by simp [executeModel, hok], ?_, ?_⟩
  · have heq : ("Error " ++ natToStr resp.status ++ ", " ++ resp.reason).data
        = "Error ".data ++ ((natToStr resp.status).data
            ++ (", ".data ++ resp.reason.data)) := by
      simp [String.data_append, List.append_assoc]
    rw [heq]
    exact listInfixOf_mid _ _ _
  · have heq : ("Error " ++ natToStr resp.status ++ ", " ++ resp.reason).data
        = ("Error ".data ++ ((natToStr resp.status).data ++ ", ".data))
            ++ (resp.reason.data ++ []) := by
      simp [String.data_append, List.append_assoc]
    rw [heq]
    exact listInfixOf_mid _ _ _

theorem claim_C9_w :
    ((⟨false, 404, "Not Found", ""⟩ : HttpResponse).ok = false)
    ∧ (executeModel [] "x" ⟨false, 404, "Not Found", ""⟩ =
        ExecOutcome.apiError ("Error " ++ natToStr 404 ++ ", " ++ "Not Found")
      ∧ listInfixOf (natToStr 404).data
          ("Error " ++ natToStr 404 ++ ", " ++ "Not Found").data = true
      ∧ listInfixOf ("Not Found" : String).data
          ("Error " ++ natToStr 404 ++ ", " ++ "Not Found").data = true) :=
  ⟨rfl, claim_C9 [] "x" ⟨false, 404, "Not Found", ""⟩ rfl⟩

end AsyncRun
